import Mathlib

/-!
Shallow embedding of the simplekv command-dispatch and storage layer.

The dispatch logic (`Hget`/`Hset`/... `execute` implementations and `dispatch`)
is translated from `src/service/command_service.rs` and `src/service/mod.rs`;
the sled iteration adapter from `src/storage/sleddb.rs`.  The protobuf-generated
data types (`Value`, `Kvpair`, `CommandRequest`, `CommandResponse`), the
`KvError` type with its response conversion, and the in-memory `MemTable`
backend are not part of the visible sources, so they are modelled from the
specification (marked `Modelled from the spec:` on each such definition).
-/

namespace SimpleKV

/-- Modelled from the spec: `Value` is a tagged union over UTF-8 string,
64-bit integer, 64-bit float, boolean and raw byte blob; a default/empty
`Value` (no variant set) exists.  The float payload is carried as its raw
64-bit pattern, since the program never computes with it. -/
inductive Value where
  | vNone
  | vString (s : String)
  | vInt (i : Int)
  | vFloat (bits : Nat)
  | vBool (b : Bool)
  | vBytes (bs : List Nat)
deriving DecidableEq, Repr

/-- The default `Value`: no variant populated. -/
def Value.defaultV : Value := .vNone

/-- Modelled from the spec: `Kvpair` is `{ key: string, value: Value }`, the
value field being optional in the wire form (`v.value.unwrap_or_default()` in
`Hset::execute` witnesses the option). -/
structure Kvpair where
  key : String
  value : Option Value
deriving DecidableEq, Repr

/-- `Kvpair::new(key, value)` with the value populated. -/
def Kvpair.new (k : String) (v : Value) : Kvpair := ⟨k, some v⟩

/-- `Kvpair::default()`: empty key, no value. -/
def Kvpair.defaultPair : Kvpair := ⟨"", none⟩

/-- Modelled from the spec: error taxonomy of §7 (the `error.rs` module is not
in the visible sources).  `ProtocolError` lives outside the dispatch layer and
is not needed here. -/
inductive KvError where
  | NotFound (table key : String)
  | InvalidCommand (reason : String)
  | ConvertError (reason : String)
  | Internal (reason : String)
deriving DecidableEq, Repr

/-- Modelled from the spec: the `CommandResponse` envelope of §3: status code,
message, `values`, `pairs`. -/
structure CommandResponse where
  status : Nat
  message : String
  values : List Value
  pairs : List Kvpair
deriving DecidableEq, Repr

/-- Modelled from the spec: conversion of a `KvError` into an error
`CommandResponse` (§6: not-found = 404, malformed request = 400, backend or
conversion failure = 500; on failure both sequences are empty and the message
is a diagnostic). -/
def KvError.toResponse : KvError → CommandResponse
  | .NotFound t k => ⟨404, "Not found for table: " ++ t ++ ", key: " ++ k, [], []⟩
  | .InvalidCommand r => ⟨400, "Invalid command: " ++ r, [], []⟩
  | .ConvertError r => ⟨500, "Convert error: " ++ r, [], []⟩
  | .Internal r => ⟨500, "Internal error: " ++ r, [], []⟩

/-- Modelled from the spec: `From<Value> for CommandResponse` — success status
200, empty message, single-element `values`. -/
def Value.toResponse (v : Value) : CommandResponse := ⟨200, "", [v], []⟩

/-- Modelled from the spec: `From<Vec<Value>> for CommandResponse` — success
with the given `values`. -/
def valuesToResponse (vs : List Value) : CommandResponse := ⟨200, "", vs, []⟩

/-- Modelled from the spec: `From<Vec<Kvpair>> for CommandResponse` — success
with the given `pairs`. -/
def pairsToResponse (ps : List Kvpair) : CommandResponse := ⟨200, "", [], ps⟩

/-- Request payload of `Hget{table,key}`. -/
structure Hget where
  table : String
  key : String
deriving DecidableEq, Repr

/-- Request payload of `Hgetall{table}`. -/
structure Hgetall where
  table : String
deriving DecidableEq, Repr

/-- Request payload of `Hset{table,pair}` (the pair is optional on the wire). -/
structure Hset where
  table : String
  pair : Option Kvpair
deriving DecidableEq, Repr

/-- Request payload of `Hmget{table,keys}`. -/
structure Hmget where
  table : String
  keys : List String
deriving DecidableEq, Repr

/-- Request payload of `Hmset{table,pairs}`. -/
structure Hmset where
  table : String
  pairs : List Kvpair
deriving DecidableEq, Repr

/-- Request payload of `Hdel{table,key}`. -/
structure Hdel where
  table : String
  key : String
deriving DecidableEq, Repr

/-- Request payload of `Hmdel{table,keys}`. -/
structure Hmdel where
  table : String
  keys : List String
deriving DecidableEq, Repr

/-- Request payload of `Hexist{table,key}`. -/
structure Hexist where
  table : String
  key : String
deriving DecidableEq, Repr

/-- Request payload of `Hmexist{table,keys}`. -/
structure Hmexist where
  table : String
  keys : List String
deriving DecidableEq, Repr

/-- The nine-variant oneof `command_request::RequestData`. -/
inductive RequestData where
  | Hget (p : Hget)
  | Hgetall (p : Hgetall)
  | Hset (p : Hset)
  | Hmget (p : Hmget)
  | Hmset (p : Hmset)
  | Hdel (p : Hdel)
  | Hmdel (p : Hmdel)
  | Hexist (p : Hexist)
  | Hmexist (p : Hmexist)
deriving DecidableEq, Repr

/-- `CommandRequest`: a single optional oneof (`None` = malformed request). -/
structure CommandRequest where
  request_data : Option RequestData
deriving DecidableEq, Repr

/-- The `Storage` trait of `storage/mod.rs` (its signatures are visible in the
`SledDB` impl): each operation may fail with a `KvError`; mutation through
`&self` is made explicit by threading a state of type `σ`. -/
structure Storage (σ : Type) where
  get : σ → String → String → Except KvError (Option Value)
  set : σ → String → String → Value → Except KvError (Option Value) × σ
  del : σ → String → String → Except KvError (Option Value) × σ
  contains : σ → String → String → Except KvError Bool
  getAll : σ → String → Except KvError (List Kvpair)

/-- `impl CommandService for Hget`: `get`; found → single value, absent →
`NotFound`, backend error → error response. -/
def Hget.execute {σ : Type} (c : Hget) (S : Storage σ) (s : σ) : CommandResponse × σ :=
  (match S.get s c.table c.key with
    | .ok (some v) => v.toResponse
    | .ok none => (KvError.NotFound c.table c.key).toResponse
    | .error e => e.toResponse, s)

/-- `impl CommandService for Hgetall`: `get_all` → `pairs`. -/
def Hgetall.execute {σ : Type} (c : Hgetall) (S : Storage σ) (s : σ) : CommandResponse × σ :=
  (match S.getAll s c.table with
    | .ok ps => pairsToResponse ps
    | .error e => e.toResponse, s)

/-- `impl CommandService for Hset`: no pair → default value success (no-op);
otherwise `set` with `value.unwrap_or_default()`, previous value (default if
none) as the single result. -/
def Hset.execute {σ : Type} (c : Hset) (S : Storage σ) (s : σ) : CommandResponse × σ :=
  match c.pair with
  | some p =>
    match S.set s c.table p.key (p.value.getD Value.defaultV) with
    | (.ok (some old), s') => (old.toResponse, s')
    | (.ok none, s') => (Value.defaultV.toResponse, s')
    | (.error e, s') => (e.toResponse, s')
  | none => (Value.defaultV.toResponse, s)

/-- `impl CommandService for Hmget`: per key in order, `Ok(Some(v))` → `v`,
anything else (absent or error) → default value. -/
def Hmget.execute {σ : Type} (c : Hmget) (S : Storage σ) (s : σ) : CommandResponse × σ :=
  (valuesToResponse (c.keys.map fun key =>
    match S.get s c.table key with
    | .ok (some v) => v
    | _ => Value.defaultV), s)

/-- One step of `Hmset`: set one pair, append the previous value (default on
absence or error) to the accumulator. -/
def hmsetStep {σ : Type} (S : Storage σ) (table : String)
    (acc : List Value × σ) (p : Kvpair) : List Value × σ :=
  match S.set acc.2 table p.key (p.value.getD Value.defaultV) with
  | (.ok (some v), s') => (acc.1 ++ [v], s')
  | (.ok none, s') => (acc.1 ++ [Value.defaultV], s')
  | (.error _, s') => (acc.1 ++ [Value.defaultV], s')

/-- `impl CommandService for Hmset`: per pair in order, set independently;
previous value or default collected per element. -/
def Hmset.execute {σ : Type} (c : Hmset) (S : Storage σ) (s : σ) : CommandResponse × σ :=
  let r := c.pairs.foldl (hmsetStep S c.table) ([], s)
  (valuesToResponse r.1, r.2)

/-- `impl CommandService for Hdel`: removed value, default if absent, error
response on backend error. -/
def Hdel.execute {σ : Type} (c : Hdel) (S : Storage σ) (s : σ) : CommandResponse × σ :=
  match S.del s c.table c.key with
  | (.ok (some v), s') => (v.toResponse, s')
  | (.ok none, s') => (Value.defaultV.toResponse, s')
  | (.error e, s') => (e.toResponse, s')

/-- One step of `Hmdel`: delete one key, append the removed value (default on
absence or error). -/
def hmdelStep {σ : Type} (S : Storage σ) (table : String)
    (acc : List Value × σ) (key : String) : List Value × σ :=
  match S.del acc.2 table key with
  | (.ok (some v), s') => (acc.1 ++ [v], s')
  | (.ok none, s') => (acc.1 ++ [Value.defaultV], s')
  | (.error _, s') => (acc.1 ++ [Value.defaultV], s')

/-- `impl CommandService for Hmdel`: per key in order, delete independently. -/
def Hmdel.execute {σ : Type} (c : Hmdel) (S : Storage σ) (s : σ) : CommandResponse × σ :=
  let r := c.keys.foldl (hmdelStep S c.table) ([], s)
  (valuesToResponse r.1, r.2)

/-- `impl CommandService for Hexist`: boolean value on success, error response
on backend error. -/
def Hexist.execute {σ : Type} (c : Hexist) (S : Storage σ) (s : σ) : CommandResponse × σ :=
  (match S.contains s c.table c.key with
    | .ok b => (Value.vBool b).toResponse
    | .error e => e.toResponse, s)

/-- `impl CommandService for Hmexist`: per key in order, boolean value on
success, default value when `contains` errors. -/
def Hmexist.execute {σ : Type} (c : Hmexist) (S : Storage σ) (s : σ) : CommandResponse × σ :=
  (valuesToResponse (c.keys.map fun key =>
    match S.contains s c.table key with
    | .ok b => Value.vBool b
    | .error _ => Value.defaultV), s)

/-- `dispatch` from `src/service/mod.rs`: one case per populated variant; no
variant populated → `InvalidCommand("Request has no data")`. -/
def dispatch {σ : Type} (cmd : CommandRequest) (S : Storage σ) (s : σ) : CommandResponse × σ :=
  match cmd.request_data with
  | some (.Hget p) => p.execute S s
  | some (.Hgetall p) => p.execute S s
  | some (.Hset p) => p.execute S s
  | some (.Hmget p) => p.execute S s
  | some (.Hmset p) => p.execute S s
  | some (.Hdel p) => p.execute S s
  | some (.Hmdel p) => p.execute S s
  | some (.Hexist p) => p.execute S s
  | some (.Hmexist p) => p.execute S s
  | none => ((KvError.InvalidCommand "Request has no data").toResponse, s)

/-! ### In-memory backend (MemTable) -/

/-- Modelled from the spec: the in-memory backend keeps one table per name,
created lazily on first write, values held directly.  State is an association
list of tables, each table an association list from key to `Value`. -/
def MemTableState : Type := List (String × List (String × Value))

/-- Association-list lookup. -/
def alGet {α : Type} (ps : List (String × α)) (k : String) : Option α :=
  ps.lookup k

/-- Association-list insert/overwrite: the new binding is placed in front and
any previous binding for the same key is removed. -/
def alSet {α : Type} (ps : List (String × α)) (k : String) (v : α) : List (String × α) :=
  (k, v) :: ps.eraseP (fun p => p.1 == k)

/-- Association-list removal of a key. -/
def alDel {α : Type} (ps : List (String × α)) (k : String) : List (String × α) :=
  ps.eraseP (fun p => p.1 == k)

/-- The value stored under `(table, key)`, if any. -/
def memLookup (s : MemTableState) (t k : String) : Option Value :=
  (alGet s t).bind (fun tbl => alGet tbl k)

/-- Modelled from the spec: `MemTable::get` — infallible map lookup. -/
def memGet (s : MemTableState) (t k : String) : Except KvError (Option Value) :=
  .ok (memLookup s t k)

/-- Modelled from the spec: `MemTable::set` — overwrite, returning the previous
value; the table is created lazily. -/
def memSet (s : MemTableState) (t k : String) (v : Value) :
    Except KvError (Option Value) × MemTableState :=
  let tbl := (alGet s t).getD []
  (.ok (alGet tbl k), alSet s t (alSet tbl k v))

/-- Modelled from the spec: `MemTable::del` — remove, returning the removed
value. -/
def memDel (s : MemTableState) (t k : String) :
    Except KvError (Option Value) × MemTableState :=
  let tbl := (alGet s t).getD []
  (.ok (alGet tbl k), alSet s t (alDel tbl k))

/-- Modelled from the spec: `MemTable::contains`. -/
def memContains (s : MemTableState) (t k : String) : Except KvError Bool :=
  .ok (memLookup s t k).isSome

/-- Modelled from the spec: `MemTable::get_all` — all pairs of the table. -/
def memGetAll (s : MemTableState) (t : String) : Except KvError (List Kvpair) :=
  .ok (((alGet s t).getD []).map fun p => Kvpair.new p.1 p.2)

/-- The `Storage` instance of the in-memory backend. -/
def memStorage : Storage MemTableState :=
  ⟨memGet, memSet, memDel, memContains, memGetAll⟩

/-! ### Service with hook pipeline

`Service::execute` from `src/service/mod.rs`.  The `on_received`/`on_executed`
hooks are read-only observers (`fn(&CommandRequest)` / `fn(&CommandResponse)`)
and the `on_after_send` hooks take no argument: each is represented by a
numeric identifier, and execution produces the trace of hook invocations in
order.  `on_before_send` hooks (`fn(&mut CommandResponse)`) are represented by
an identifier together with the response transformation they perform. -/

/-- One hook invocation, tagged with the hook list it came from and the
registered hook's identifier. -/
inductive HookEvent where
  | received (id : Nat)
  | executed (id : Nat)
  | beforeSend (id : Nat)
  | afterSend (id : Nat)
deriving DecidableEq, Repr

/-- A `Service<MemTable>` with its four registered hook lists, each in
registration order. -/
structure ServiceModel where
  store : MemTableState
  on_received : List Nat
  on_executed : List Nat
  on_before_send : List (Nat × (CommandResponse → CommandResponse))
  on_after_send : List Nat

/-- `NotifyMut for Vec<fn(&mut Args)>`: apply each hook in order to the
response, recording the invocations. -/
def notifyMut (hooks : List (Nat × (CommandResponse → CommandResponse)))
    (r : CommandResponse) : CommandResponse × List HookEvent :=
  match hooks with
  | [] => (r, [])
  | h :: rest =>
    let step := notifyMut rest (h.2 r)
    (step.1, HookEvent.beforeSend h.1 :: step.2)

/-- `Service::execute`: notify `on_received`, dispatch, notify `on_executed`,
notify `on_before_send` (mutating), return the response.  The returned trace
lists every hook invocation the call performed, in order. -/
def ServiceModel.execute (svc : ServiceModel) (cmd : CommandRequest) :
    CommandResponse × MemTableState × List HookEvent :=
  let evr := svc.on_received.map HookEvent.received
  let d := dispatch cmd memStorage svc.store
  let eve := svc.on_executed.map HookEvent.executed
  let b := notifyMut svc.on_before_send d.1
  (b.1, d.2, evr ++ eve ++ b.2)

/-! ### Sled backend iteration (`src/storage/sleddb.rs`)

`get_all`/`get_iter` map `From<sled::Result<(IVec, IVec)>> for Kvpair` over the
tree's entries.  That conversion decodes the value bytes (`v.try_into()`), and
on success builds `Kvpair::new(str::from_utf8(k.as_ref()).unwrap(), v)` — the
`unwrap` panics when the key bytes are not valid UTF-8.  A panic is modelled as
`none`. -/

/-- UTF-8 decoding of a byte sequence, modelling `std::str::from_utf8`:
`pending` continuation bytes are still expected for the code point accumulated
in `acc`, which must reach at least `lo` (overlong rejection); surrogates and
code points above `0x10FFFF` are rejected. -/
def utf8Aux : List Nat → Nat → Nat → Nat → Option (List Char)
  | [], 0, _, _ => some []
  | [], _ + 1, _, _ => none
  | b :: bs, 0, _, _ =>
    if b < 0x80 then (utf8Aux bs 0 0 0).map (fun cs => Char.ofNat b :: cs)
    else if 0xC0 ≤ b ∧ b < 0xE0 then utf8Aux bs 1 (b - 0xC0) 0x80
    else if 0xE0 ≤ b ∧ b < 0xF0 then utf8Aux bs 2 (b - 0xE0) 0x800
    else if 0xF0 ≤ b ∧ b < 0xF8 then utf8Aux bs 3 (b - 0xF0) 0x10000
    else none
  | b :: bs, p + 1, acc, lo =>
    if 0x80 ≤ b ∧ b < 0xC0 then
      match p with
      | 0 =>
        let cp := acc * 64 + (b - 0x80)
        if lo ≤ cp ∧ cp < 0x110000 ∧ ¬(0xD800 ≤ cp ∧ cp < 0xE000) then
          (utf8Aux bs 0 0 0).map (fun cs => Char.ofNat cp :: cs)
        else none
      | q + 1 => utf8Aux bs (q + 1) (acc * 64 + (b - 0x80)) lo
    else none

/-- `str::from_utf8` on key bytes: the decoded string, or `none` when the
bytes are not valid UTF-8 (where the source `unwrap` panics). -/
def utf8Decode (bs : List Nat) : Option String :=
  (utf8Aux bs 0 0 0).map (fun cs => String.mk cs)

/-- Modelled from the spec: prost byte deserialization of a `Value`
(`TryFrom<IVec>` lives in the generated pb module, not in the visible
sources).  A tag byte selects the variant; byte sequences fitting no variant
fail with a conversion error. -/
def decodeValue : List Nat → Except KvError Value
  | [0] => .ok .vNone
  | 1 :: bs =>
    match utf8Decode bs with
    | some s => .ok (.vString s)
    | none => .error (.ConvertError "invalid string payload")
  | 2 :: sign :: bs =>
    if sign = 0 then .ok (.vInt (Nat.ofDigits 256 bs))
    else if sign = 1 then .ok (.vInt (-(Nat.ofDigits 256 bs : Int)))
    else .error (.ConvertError "invalid int payload")
  | 3 :: bs =>
    if bs.length = 8 then .ok (.vFloat (Nat.ofDigits 256 bs))
    else .error (.ConvertError "invalid float payload")
  | [4, 0] => .ok (.vBool false)
  | [4, 1] => .ok (.vBool true)
  | 5 :: bs => .ok (.vBytes bs)
  | _ => .error (.ConvertError "unknown value encoding")

/-- One item yielded by a sled tree iterator: a raw `(key bytes, value bytes)`
entry, or a backend error. -/
abbrev SledEntry : Type := Except String (List Nat × List Nat)

/-- `From<sled::Result<(IVec, IVec)>> for Kvpair`: backend error or value-bytes
decode failure → `Kvpair::default()`; on decode success the key bytes are
converted with `str::from_utf8(..).unwrap()`, whose panic is `none`. -/
def kvpairOfEntry (e : SledEntry) : Option Kvpair :=
  match e with
  | .ok (k, v) =>
    match decodeValue v with
    | .ok val => (utf8Decode k).map (fun ks => Kvpair.new ks val)
    | .error _ => some Kvpair.defaultPair
  | .error _ => some Kvpair.defaultPair

/-- `SledDB::get_all`: collect the converted entries of the tree iteration in
order; `none` as soon as converting an entry panics. -/
def sledGetAll : List SledEntry → Option (List Kvpair)
  | [] => some []
  | e :: rest =>
    match kvpairOfEntry e with
    | some p => (sledGetAll rest).map (fun ps => p :: ps)
    | none => none

/-- A demonstration backend whose operations fail on the key `"bad"`, used to
exercise the error-tolerant dispatch paths on concrete inputs. -/
def faultyStorage : Storage Unit where
  get := fun _ _ k =>
    if k = "bad" then .error (.Internal "io")
    else if k = "present" then .ok (some (.vInt 1)) else .ok none
  set := fun _ _ _ _ => (.error (.Internal "io"), ())
  del := fun _ _ k =>
    (if k = "bad" then .error (.Internal "io") else .ok none, ())
  contains := fun _ _ k =>
    if k = "bad" then .error (.Internal "io") else .ok (k == "present")
  getAll := fun _ _ => .error (.Internal "io")

/-! ### Association-list and backend lemmas -/

theorem alGet_alSet_self {α : Type} (ps : List (String × α)) (k : String) (v : α) :
    alGet (alSet ps k v) k = some v := by
  simp [alGet, alSet, List.lookup]

theorem lookup_eraseP_ne {α : Type} (ps : List (String × α)) (k k' : String) (h : k' ≠ k) :
    List.lookup k' (ps.eraseP (fun p => p.1 == k)) = List.lookup k' ps := by
  induction ps with
  | nil => rfl
  | cons a rest ih =>
    by_cases hk : a.1 = k
    · have hne : (k' == a.1) = false := by simp [hk, h]
      have hne2 : (k' == k) = false := by simp [h]
      simp [List.eraseP_cons, hk, List.lookup, hne, hne2]
    · by_cases hk' : k' = a.1
      · simp [List.eraseP_cons, hk, List.lookup, hk']
      · have hne : (k' == a.1) = false := by simp [hk']
        simp [List.eraseP_cons, hk, List.lookup, hne, ih]

theorem alGet_alSet_ne {α : Type} (ps : List (String × α)) (k : String) (v : α)
    (k' : String) (h : k' ≠ k) : alGet (alSet ps k v) k' = alGet ps k' := by
  have hne : (k' == k) = false := by simp [h]
  simp [alGet, alSet, List.lookup, hne, lookup_eraseP_ne ps k k' h]

theorem memLookup_eq_alGet (s : MemTableState) (t k : String) :
    memLookup s t k = alGet ((alGet s t).getD []) k := by
  simp only [memLookup]
  cases h : alGet s t
  · rfl
  · rfl

theorem memLookup_hset (s : MemTableState) (t k : String) (v : Value) (t' k' : String) :
    memLookup (alSet s t (alSet ((alGet s t).getD []) k v)) t' k' =
      if t' = t ∧ k' = k then some v else memLookup s t' k' := by
  by_cases ht : t' = t
  · subst ht
    simp only [memLookup, alGet_alSet_self, Option.some_bind]
    by_cases hk : k' = k
    · subst hk; simp [alGet_alSet_self]
    · rw [alGet_alSet_ne _ _ _ _ hk, ← memLookup_eq_alGet]
      simp [hk, memLookup]
  · simp only [memLookup, alGet_alSet_ne _ _ _ _ ht]
    simp [ht, memLookup]

/-- `Hset` over the in-memory backend, in closed form: the response carries the
previous value (default if none) and the state gets the overwritten entry. -/
theorem hset_execute_mem (t k : String) (v0 : Option Value) (s : MemTableState) :
    (Hset.mk t (some ⟨k, v0⟩)).execute memStorage s =
      (((memLookup s t k).getD Value.defaultV).toResponse,
        alSet s t (alSet ((alGet s t).getD []) k (v0.getD Value.defaultV))) := by
  simp only [Hset.execute, memStorage, memSet]
  rw [memLookup_eq_alGet]
  cases alGet ((alGet s t).getD []) k <;> rfl

/-- `Hget` over the in-memory backend, in closed form. -/
theorem hget_execute_mem (t k : String) (s : MemTableState) :
    (Hget.mk t k).execute memStorage s =
      ((match memLookup s t k with
        | some v => v.toResponse
        | none => (KvError.NotFound t k).toResponse), s) := by
  simp only [Hget.execute, memStorage, memGet]
  cases memLookup s t k <;> rfl

/-- `Hdel` over the in-memory backend, in closed form. -/
theorem hdel_execute_mem (t k : String) (s : MemTableState) :
    (Hdel.mk t k).execute memStorage s =
      (((memLookup s t k).getD Value.defaultV).toResponse,
        alSet s t (alDel ((alGet s t).getD []) k)) := by
  simp only [Hdel.execute, memStorage, memDel]
  rw [memLookup_eq_alGet]
  cases alGet ((alGet s t).getD []) k <;> rfl

theorem hset_status_mem (c : Hset) (s : MemTableState) :
    ((c.execute memStorage s).1.status = 200) := by
  rcases c with ⟨t, _ | ⟨k, v0⟩⟩
  · rfl
  · rw [hset_execute_mem]; rfl

theorem hdel_status_mem (c : Hdel) (s : MemTableState) :
    ((c.execute memStorage s).1.status = 200) := by
  rcases c with ⟨t, k⟩
  rw [hdel_execute_mem]; rfl

theorem hexist_status_mem (c : Hexist) (s : MemTableState) :
    ((c.execute memStorage s).1.status = 200) := rfl

theorem hgetall_status_mem (c : Hgetall) (s : MemTableState) :
    ((c.execute memStorage s).1.status = 200) := rfl

theorem hmget_status_mem (c : Hmget) (s : MemTableState) :
    ((c.execute memStorage s).1.status = 200) := rfl

theorem hmset_status_mem (c : Hmset) (s : MemTableState) :
    ((c.execute memStorage s).1.status = 200) := rfl

theorem hmdel_status_mem (c : Hmdel) (s : MemTableState) :
    ((c.execute memStorage s).1.status = 200) := rfl

theorem hmexist_status_mem (c : Hmexist) (s : MemTableState) :
    ((c.execute memStorage s).1.status = 200) := rfl

/-- `notifyMut` applies the hooks as a left fold and records one `beforeSend`
event per hook, in list order. -/
theorem notifyMut_eq (hooks : List (Nat × (CommandResponse → CommandResponse)))
    (r : CommandResponse) :
    notifyMut hooks r =
      (hooks.foldl (fun a h => h.2 a) r, hooks.map fun h => HookEvent.beforeSend h.1) := by
  induction hooks generalizing r with
  | nil => rfl
  | cons h rest ih => simp [notifyMut, ih]

/-- `sledGetAll` succeeds and agrees with an entry-wise `map` when converting
every entry yields a pair (no entry panics). -/
theorem sledGetAll_of_isSome (l : List SledEntry)
    (h : ∀ e ∈ l, (kvpairOfEntry e).isSome) :
    sledGetAll l = some (l.map fun e => (kvpairOfEntry e).getD Kvpair.defaultPair) := by
  induction l with
  | nil => rfl
  | cons e rest ih =>
    obtain ⟨p, hp⟩ := Option.isSome_iff_exists.mp (h e (by simp))
    have hrest := ih (fun x hx => h x (by simp [hx]))
    simp [sledGetAll, hp, hrest]

/-- `dispatch` of an `Hset` carrying a pair, over the in-memory backend. -/
theorem dispatch_hset_mem (t k : String) (v0 : Option Value) (s : MemTableState) :
    dispatch ⟨some (RequestData.Hset ⟨t, some ⟨k, v0⟩⟩)⟩ memStorage s =
      (((memLookup s t k).getD Value.defaultV).toResponse,
        alSet s t (alSet ((alGet s t).getD []) k (v0.getD Value.defaultV))) :=
  hset_execute_mem t k v0 s

/-- `dispatch` of an `Hget`, over the in-memory backend. -/
theorem dispatch_hget_mem (t k : String) (s : MemTableState) :
    dispatch ⟨some (RequestData.Hget ⟨t, k⟩)⟩ memStorage s =
      ((match memLookup s t k with
        | some v => v.toResponse
        | none => (KvError.NotFound t k).toResponse), s) :=
  hget_execute_mem t k s

/-- `dispatch` of an `Hdel`, over the in-memory backend. -/
theorem dispatch_hdel_mem (t k : String) (s : MemTableState) :
    dispatch ⟨some (RequestData.Hdel ⟨t, k⟩)⟩ memStorage s =
      (((memLookup s t k).getD Value.defaultV).toResponse,
        alSet s t (alDel ((alGet s t).getD []) k)) :=
  hdel_execute_mem t k s

/-! ### The claims -/

/-- Claim C1: for every `Hmget` request over table `T` with keys `k1..kN`
dispatched against a storage, the response is a success whose `values` has
exactly `N` elements, positionally aligned with the request's key order, where
position `i` holds the stored value when `ki` is present and the default
`Value` when `ki` is missing or its lookup errors; no per-element failure
aborts the batch. -/
theorem hmget_batch_aligned {σ : Type} (S : Storage σ) (s : σ) (c : Hmget) :
    (dispatch ⟨some (RequestData.Hmget c)⟩ S s).1.status = 200 ∧
    (dispatch ⟨some (RequestData.Hmget c)⟩ S s).1.message = "" ∧
    (dispatch ⟨some (RequestData.Hmget c)⟩ S s).1.pairs = [] ∧
    (dispatch ⟨some (RequestData.Hmget c)⟩ S s).1.values.length = c.keys.length ∧
    ∀ i (h : i < c.keys.length),
      (dispatch ⟨some (RequestData.Hmget c)⟩ S s).1.values[i]? =
        some (match S.get s c.table c.keys[i] with
          | .ok (some v) => v
          | _ => Value.defaultV) := by
  refine ⟨rfl, rfl, rfl, ?_, ?_⟩
  · simp [dispatch, Hmget.execute, valuesToResponse]
  · intro i h
    simp [dispatch, Hmget.execute, valuesToResponse, List.getElem?_map,
      List.getElem?_eq_getElem h]

/-- Witness for the `Hmget` batch theorem at a backend with a present key, a
missing key and an erroring key. -/
theorem hmget_batch_aligned_witness :
    (dispatch ⟨some (RequestData.Hmget ⟨"t", ["present", "nope", "bad"]⟩)⟩
        faultyStorage ()).1.values[0]? = some (Value.vInt 1) ∧
    (dispatch ⟨some (RequestData.Hmget ⟨"t", ["present", "nope", "bad"]⟩)⟩
        faultyStorage ()).1.values[1]? = some Value.defaultV ∧
    (dispatch ⟨some (RequestData.Hmget ⟨"t", ["present", "nope", "bad"]⟩)⟩
        faultyStorage ()).1.values[2]? = some Value.defaultV ∧
    (dispatch ⟨some (RequestData.Hmget ⟨"t", ["present", "nope", "bad"]⟩)⟩
        faultyStorage ()).1.values.length = 3 := by
  have h := hmget_batch_aligned faultyStorage () ⟨"t", ["present", "nope", "bad"]⟩
  refine ⟨?_, ?_, ?_, h.2.2.2.1⟩
  · rw [h.2.2.2.2 0 (by decide)]; rfl
  · rw [h.2.2.2.2 1 (by decide)]; rfl
  · rw [h.2.2.2.2 2 (by decide)]; rfl

/-- Claim C2: for every `Hget` request, a found value yields a success whose
`values` is exactly that one value; an absent key yields the `NotFound` error
response (status 404); a backend error yields the corresponding error
response. -/
theorem hget_response_cases {σ : Type} (S : Storage σ) (s : σ) (c : Hget) :
    (∀ v, S.get s c.table c.key = .ok (some v) →
      (dispatch ⟨some (RequestData.Hget c)⟩ S s).1 = ⟨200, "", [v], []⟩) ∧
    (S.get s c.table c.key = .ok none →
      (dispatch ⟨some (RequestData.Hget c)⟩ S s).1 =
        (KvError.NotFound c.table c.key).toResponse ∧
      (dispatch ⟨some (RequestData.Hget c)⟩ S s).1.status = 404) ∧
    (∀ e, S.get s c.table c.key = .error e →
      (dispatch ⟨some (RequestData.Hget c)⟩ S s).1 = e.toResponse) := by
  refine ⟨?_, ?_, ?_⟩
  · intro v hv
    simp [dispatch, Hget.execute, hv, Value.toResponse]
  · intro hv
    constructor <;> simp [dispatch, Hget.execute, hv, KvError.toResponse]
  · intro e he
    simp [dispatch, Hget.execute, he]

/-- Witness for the `Hget` theorem: a present key returns its value, an absent
key returns status 404. -/
theorem hget_response_cases_witness :
    (dispatch ⟨some (RequestData.Hget ⟨"t", "k"⟩)⟩ memStorage
        [("t", [("k", Value.vInt 7)])]).1 = ⟨200, "", [Value.vInt 7], []⟩ ∧
    (dispatch ⟨some (RequestData.Hget ⟨"t", "k"⟩)⟩ memStorage []).1.status = 404 := by
  refine ⟨(hget_response_cases memStorage _ ⟨"t", "k"⟩).1 (Value.vInt 7) (by rfl), ?_⟩
  exact ((hget_response_cases memStorage [] ⟨"t", "k"⟩).2.1 (by rfl)).2

/-- Claim C4: a `CommandRequest` with no variant populated dispatches to the
`InvalidCommand` error response: status 400, empty `values` and `pairs`, and
the storage state unchanged. -/
theorem dispatch_no_variant {σ : Type} (S : Storage σ) (s : σ) :
    dispatch ⟨none⟩ S s = ((KvError.InvalidCommand "Request has no data").toResponse, s) ∧
    (dispatch ⟨none⟩ S s).1.status = 400 ∧
    (dispatch ⟨none⟩ S s).1.values = [] ∧
    (dispatch ⟨none⟩ S s).1.pairs = [] :=
  ⟨rfl, rfl, rfl, rfl⟩

/-- Claim C3: an `Hset` carrying no pair succeeds with a single default
`Value` and leaves the storage unchanged (no-op, not an error); an `Hset`
carrying a pair overwrites the entry and succeeds with the previous value
(default if none) as its single-element `values`. -/
theorem hset_semantics (s : MemTableState) (t : String) :
    dispatch ⟨some (RequestData.Hset ⟨t, none⟩)⟩ memStorage s =
      (⟨200, "", [Value.defaultV], []⟩, s) ∧
    ∀ k v0,
      (dispatch ⟨some (RequestData.Hset ⟨t, some ⟨k, v0⟩⟩)⟩ memStorage s).1 =
        ⟨200, "", [(memLookup s t k).getD Value.defaultV], []⟩ ∧
      ∀ t' k',
        memLookup (dispatch ⟨some (RequestData.Hset ⟨t, some ⟨k, v0⟩⟩)⟩ memStorage s).2 t' k' =
          if t' = t ∧ k' = k then some (v0.getD Value.defaultV) else memLookup s t' k' := by
  refine ⟨rfl, ?_⟩
  intro k v0
  rw [dispatch_hset_mem]
  exact ⟨rfl, fun t' k' => memLookup_hset s t k (v0.getD Value.defaultV) t' k'⟩

/-- Claim C9: setting `(T, K)` to `V1` then to `V2` makes the second `Hset`
return `V1` as its single-element `values`, and a subsequent `Hget` return
`V2` (last-write-wins). -/
theorem set_set_get_lww (s : MemTableState) (T K : String) (V1 V2 : Value) :
    (dispatch ⟨some (RequestData.Hset ⟨T, some ⟨K, some V2⟩⟩)⟩ memStorage
        (dispatch ⟨some (RequestData.Hset ⟨T, some ⟨K, some V1⟩⟩)⟩ memStorage s).2).1 =
      ⟨200, "", [V1], []⟩ ∧
    (dispatch ⟨some (RequestData.Hget ⟨T, K⟩)⟩ memStorage
        (dispatch ⟨some (RequestData.Hset ⟨T, some ⟨K, some V2⟩⟩)⟩ memStorage
          (dispatch ⟨some (RequestData.Hset ⟨T, some ⟨K, some V1⟩⟩)⟩ memStorage s).2).2).1 =
      ⟨200, "", [V2], []⟩ := by
  have step : ∀ (s' : MemTableState) (v : Value),
      memLookup (dispatch ⟨some (RequestData.Hset ⟨T, some ⟨K, some v⟩⟩)⟩ memStorage s').2 T K =
        some v := by
    intro s' v
    simp only [dispatch_hset_mem]
    rw [memLookup_hset]
    simp
  have resp : ∀ (s' : MemTableState) (v : Value),
      (dispatch ⟨some (RequestData.Hset ⟨T, some ⟨K, some v⟩⟩)⟩ memStorage s').1 =
        ((memLookup s' T K).getD Value.defaultV).toResponse := by
    intro s' v
    simp only [dispatch_hset_mem]
  refine ⟨?_, ?_⟩
  · rw [resp _ V2, step s V1]
    rfl
  · rw [dispatch_hget_mem, step _ V2]
    rfl

/-- Claim C10: an `Hset` whose pair is present but whose value field is absent
stores the default `Value` under the key (a subsequent `Hget` succeeds and
returns the default `Value`) and responds with success. -/
theorem hset_missing_value (s : MemTableState) (T K : String) :
    (dispatch ⟨some (RequestData.Hset ⟨T, some ⟨K, none⟩⟩)⟩ memStorage s).1.status = 200 ∧
    memLookup (dispatch ⟨some (RequestData.Hset ⟨T, some ⟨K, none⟩⟩)⟩ memStorage s).2 T K =
      some Value.defaultV ∧
    (dispatch ⟨some (RequestData.Hget ⟨T, K⟩)⟩ memStorage
        (dispatch ⟨some (RequestData.Hset ⟨T, some ⟨K, none⟩⟩)⟩ memStorage s).2).1 =
      ⟨200, "", [Value.defaultV], []⟩ := by
  have hstore :
      memLookup (dispatch ⟨some (RequestData.Hset ⟨T, some ⟨K, none⟩⟩)⟩ memStorage s).2 T K =
        some Value.defaultV := by
    simp only [dispatch_hset_mem]
    rw [memLookup_hset]
    simp
  refine ⟨?_, hstore, ?_⟩
  · rw [dispatch_hset_mem]
    rfl
  · rw [dispatch_hget_mem, hstore]
    rfl

/-- Claim C5 (as stated, refuted): on a concrete service with one registered
`on_after_send` hook, `Service::execute` performs exactly the `on_received` and
`on_executed` invocations — the `on_after_send` hook is never invoked. -/
theorem service_after_send_missing :
    (ServiceModel.execute ⟨[], [0], [1], [], [7]⟩ ⟨none⟩).2.2 =
      [HookEvent.received 0, HookEvent.executed 1] ∧
    ((ServiceModel.execute ⟨[], [0], [1], [], [7]⟩ ⟨none⟩).2.2.filter
      (fun e => match e with | HookEvent.afterSend _ => true | _ => false)) = [] := by
  constructor
  · rfl
  · decide

/-- Claim C5 (amended): every `Service::execute` call invokes the
`on_received` hooks on the request before dispatch, the `on_executed` hooks
and then the `on_before_send` hooks after dispatch — each list strictly in
registration order — with the `on_before_send` mutations composed in order
into the response the caller receives; the `on_after_send` hooks are never
invoked by `execute`. -/
theorem service_execute_pipeline (svc : ServiceModel) (cmd : CommandRequest) :
    (svc.execute cmd).2.2 =
      svc.on_received.map HookEvent.received ++
      svc.on_executed.map HookEvent.executed ++
      svc.on_before_send.map (fun h => HookEvent.beforeSend h.1) ∧
    (svc.execute cmd).1 =
      svc.on_before_send.foldl (fun r h => h.2 r) (dispatch cmd memStorage svc.store).1 ∧
    (svc.execute cmd).2.1 = (dispatch cmd memStorage svc.store).2 ∧
    ((svc.execute cmd).2.2.filter
      (fun e => match e with | HookEvent.afterSend _ => true | _ => false)) = [] := by
  have hn := notifyMut_eq svc.on_before_send (dispatch cmd memStorage svc.store).1
  refine ⟨?_, ?_, rfl, ?_⟩
  · simp [ServiceModel.execute, hn]
  · simp [ServiceModel.execute, hn]
  · simp only [ServiceModel.execute, hn, List.filter_append, List.filter_map]
    simp [List.filter_eq_nil_iff, Function.comp]

/-- Claim C6: over the in-memory backend a 404 response arises only from the
single-key get/del commands, and for a key never written `Hget` yields
`NotFound`, `Hexist` a false boolean `Value`, and `Hdel` a successful default
`Value`. -/
theorem notfound_policy (s : MemTableState) :
    (∀ cmd : CommandRequest, (dispatch cmd memStorage s).1.status = 404 →
      (∃ p, cmd.request_data = some (RequestData.Hget p)) ∨
      (∃ p, cmd.request_data = some (RequestData.Hdel p))) ∧
    (∀ T K, memLookup s T K = none →
      (dispatch ⟨some (RequestData.Hget ⟨T, K⟩)⟩ memStorage s).1 =
        (KvError.NotFound T K).toResponse ∧
      (dispatch ⟨some (RequestData.Hexist ⟨T, K⟩)⟩ memStorage s).1 =
        ⟨200, "", [Value.vBool false], []⟩ ∧
      (dispatch ⟨some (RequestData.Hdel ⟨T, K⟩)⟩ memStorage s).1 =
        ⟨200, "", [Value.defaultV], []⟩) := by
  constructor
  · rintro ⟨_ | d⟩ h
    · simp [dispatch, KvError.toResponse] at h
    · cases d with
      | Hget p => exact Or.inl ⟨p, rfl⟩
      | Hdel p => exact Or.inr ⟨p, rfl⟩
      | Hgetall p =>
        simp only [dispatch] at h
        rw [hgetall_status_mem] at h
        exact absurd h (by decide)
      | Hset p =>
        simp only [dispatch] at h
        rw [hset_status_mem] at h
        exact absurd h (by decide)
      | Hmget p =>
        simp only [dispatch] at h
        rw [hmget_status_mem] at h
        exact absurd h (by decide)
      | Hmset p =>
        simp only [dispatch] at h
        rw [hmset_status_mem] at h
        exact absurd h (by decide)
      | Hmdel p =>
        simp only [dispatch] at h
        rw [hmdel_status_mem] at h
        exact absurd h (by decide)
      | Hexist p =>
        simp only [dispatch] at h
        rw [hexist_status_mem] at h
        exact absurd h (by decide)
      | Hmexist p =>
        simp only [dispatch] at h
        rw [hmexist_status_mem] at h
        exact absurd h (by decide)
  · intro T K hTK
    refine ⟨?_, ?_, ?_⟩
    · rw [dispatch_hget_mem, hTK]
    · simp [dispatch, Hexist.execute, memStorage, memContains, hTK, Value.toResponse]
    · rw [dispatch_hdel_mem]
      simp [hTK, Value.toResponse]

/-- Witness for the NotFound-policy theorem on the empty store. -/
theorem notfound_policy_witness :
    ((∃ p, (CommandRequest.mk (some (RequestData.Hget ⟨"t", "k"⟩))).request_data =
        some (RequestData.Hget p)) ∨
      (∃ p, (CommandRequest.mk (some (RequestData.Hget ⟨"t", "k"⟩))).request_data =
        some (RequestData.Hdel p))) ∧
    (dispatch ⟨some (RequestData.Hexist ⟨"t", "k"⟩)⟩ memStorage []).1 =
      ⟨200, "", [Value.vBool false], []⟩ ∧
    (dispatch ⟨some (RequestData.Hdel ⟨"t", "k"⟩)⟩ memStorage []).1 =
      ⟨200, "", [Value.defaultV], []⟩ := by
  have h := notfound_policy []
  have h2 := h.2 "t" "k" (by rfl)
  exact ⟨h.1 ⟨some (RequestData.Hget ⟨"t", "k"⟩)⟩ (by decide), h2.2.1, h2.2.2⟩

/-- Claim C8: `Hexist` responds with a single boolean `Value` equal to the
key's presence; `Hmexist` responds with one boolean `Value` per requested key
in request order, an erroring `contains` yielding the default `Value` at that
position rather than aborting the batch. -/
theorem hexist_hmexist_bool {σ : Type} (S : Storage σ) (s : σ) (c1 : Hexist) (c : Hmexist) :
    (∀ b, S.contains s c1.table c1.key = .ok b →
      (dispatch ⟨some (RequestData.Hexist c1)⟩ S s).1 = ⟨200, "", [Value.vBool b], []⟩) ∧
    (dispatch ⟨some (RequestData.Hmexist c)⟩ S s).1.status = 200 ∧
    (dispatch ⟨some (RequestData.Hmexist c)⟩ S s).1.values.length = c.keys.length ∧
    ∀ i (h : i < c.keys.length),
      (dispatch ⟨some (RequestData.Hmexist c)⟩ S s).1.values[i]? =
        some (match S.contains s c.table c.keys[i] with
          | .ok b => Value.vBool b
          | .error _ => Value.defaultV) := by
  refine ⟨?_, rfl, ?_, ?_⟩
  · intro b hb
    simp [dispatch, Hexist.execute, hb, Value.toResponse]
  · simp [dispatch, Hmexist.execute, valuesToResponse]
  · intro i h
    simp [dispatch, Hmexist.execute, valuesToResponse, List.getElem?_map,
      List.getElem?_eq_getElem h]

/-- Witness for the `Hexist`/`Hmexist` theorem at a backend with a present key
and an erroring key. -/
theorem hexist_hmexist_bool_witness :
    (dispatch ⟨some (RequestData.Hexist ⟨"t", "present"⟩)⟩ faultyStorage ()).1 =
      ⟨200, "", [Value.vBool true], []⟩ ∧
    (dispatch ⟨some (RequestData.Hmexist ⟨"t", ["present", "bad"]⟩)⟩
        faultyStorage ()).1.values[0]? = some (Value.vBool true) ∧
    (dispatch ⟨some (RequestData.Hmexist ⟨"t", ["present", "bad"]⟩)⟩
        faultyStorage ()).1.values[1]? = some Value.defaultV := by
  have h := hexist_hmexist_bool faultyStorage () ⟨"t", "present"⟩ ⟨"t", ["present", "bad"]⟩
  refine ⟨h.1 true (by rfl), ?_, ?_⟩
  · rw [h.2.2.2 0 (by decide)]; rfl
  · rw [h.2.2.2 1 (by decide)]; rfl

/-- Claim C7 (as stated, refuted): a table state consisting of one entry whose
value bytes decode to a `Value` but whose key bytes `[0xFF]` are not valid
UTF-8 makes `get_all`'s iteration panic (`str::from_utf8(..).unwrap()`), so
the scan does not complete. -/
theorem sled_scan_crash_on_invalid_key :
    decodeValue [0] = Except.ok Value.vNone ∧
    utf8Decode [255] = none ∧
    sledGetAll [Except.ok ([255], [0])] = none :=
  ⟨rfl, by decide, by decide⟩

/-- Claim C7 (amended): during the ordered-store scan every entry whose value
bytes fail to deserialize — and every per-entry backend error — degrades to a
default `Kvpair` rather than aborting the scan, and for every table state
whose entries' key bytes are valid UTF-8 the whole iteration completes; an
entry with a decodable value but non-UTF-8 key bytes instead panics. -/
theorem sled_scan_lossy (entries : List SledEntry)
    (hk : ∀ k v, Except.ok (k, v) ∈ entries → (utf8Decode k).isSome) :
    sledGetAll entries =
      some (entries.map fun e => (kvpairOfEntry e).getD Kvpair.defaultPair) ∧
    (∀ err : String, kvpairOfEntry (Except.error err) = some Kvpair.defaultPair) ∧
    (∀ k v err, Except.ok (k, v) ∈ entries → decodeValue v = Except.error err →
      kvpairOfEntry (Except.ok (k, v)) = some Kvpair.defaultPair) := by
  refine ⟨?_, fun err => rfl, ?_⟩
  · apply sledGetAll_of_isSome
    intro e he
    rcases e with err | ⟨k, v⟩
    · rfl
    · simp only [kvpairOfEntry]
      cases hd : decodeValue v
      · rfl
      · obtain ⟨str, hstr⟩ := Option.isSome_iff_exists.mp (hk k v he)
        simp [hstr]
  · intro k v err _ hd
    simp [kvpairOfEntry, hd]

/-- Witness for the sled-scan theorem: a decodable entry, a backend error and
an undecodable value collect into the aligned pair list. -/
theorem sled_scan_lossy_witness :
    sledGetAll [Except.ok ([104, 105], [0]), Except.error "io", Except.ok ([97], [9, 9])] =
      some [Kvpair.new "hi" Value.vNone, Kvpair.defaultPair, Kvpair.defaultPair] := by
  have hk : ∀ k v,
      Except.ok (k, v) ∈
        ([Except.ok ([104, 105], [0]), Except.error "io",
          Except.ok ([97], [9, 9])] : List SledEntry) →
      (utf8Decode k).isSome := by
    intro k v hmem
    simp only [List.mem_cons, List.not_mem_nil, or_false] at hmem
    rcases hmem with h1 | h1 | h1
    · simp only [Except.ok.injEq, Prod.mk.injEq] at h1
      obtain ⟨rfl, rfl⟩ := h1
      decide
    · exact absurd h1 (by simp)
    · simp only [Except.ok.injEq, Prod.mk.injEq] at h1
      obtain ⟨rfl, rfl⟩ := h1
      decide
  have h := sled_scan_lossy _ hk
  rw [h.1]
  decide

end SimpleKV
